import Mathlib

/-!
Verification of the PPTX-to-HTML table converter (`backend/server.py`).

The development shallowly embeds the converter's core pipeline: the CSS
registry (a deduplicating set of rule strings, modelled as a duplicate-free
list threaded through every function), theme-color extraction, the CSS class
generators, and the run/paragraph/cell/table renderers.  Machine text is
modelled as Lean `String`, presentation-library objects as plain structures
whose fields record the outcome of each attribute access the code performs
(including the "access raised" outcome that the code swallows with a bare
`except`).  All definitions are executable; string helpers that Lean core
implements by well-founded recursion (such as `String.splitOn`) are replaced
by structurally recursive equivalents so that concrete instances evaluate
inside the kernel.
-/

/-- The request-scoped CSS registry `GENERATED_CSS`.  The Python code keeps a
set of rule strings; we model it as a list to which a rule is appended only
when not already present, which preserves both membership and cardinality
semantics of the set while fixing an iteration order. -/
abbrev Registry := List String

/-- Builds the rule string `f"{selector} {{ {body} }}"`. -/
def ruleFor (selector body : String) : String :=
  selector ++ " \x7b " ++ body ++ " \x7d"

/-- Embedding of `add_css`: add the rule to the registry (set insertion). -/
def add_css (st : Registry) (selector body : String) : Registry :=
  let rule := ruleFor selector body
  if rule ∈ st then st else st ++ [rule]

/-- ASCII lowercase-to-uppercase conversion of one character, the model of
Python `str.upper` on a single character. -/
def upChar (c : Char) : Char :=
  if 97 ≤ c.toNat ∧ c.toNat ≤ 122 then Char.ofNat (c.toNat - 32) else c

/-- ASCII uppercase-to-lowercase conversion of one character. -/
def lowChar (c : Char) : Char :=
  if 65 ≤ c.toNat ∧ c.toNat ≤ 90 then Char.ofNat (c.toNat + 32) else c

/-- Model of Python `str.upper`. -/
def strUpper (s : String) : String := String.mk (s.data.map upChar)

/-- Model of Python `str.lower`. -/
def strLower (s : String) : String := String.mk (s.data.map lowChar)

/-- Model of Python `s[1:]` (and generally slicing off a prefix). -/
def strDrop (s : String) (n : Nat) : String := String.mk (s.data.drop n)

/-- Model of Python `sep.join(parts)` for a non-empty separator. -/
def joinSep (sep : String) : List String → String
  | [] => ""
  | [x] => x
  | x :: y :: xs => x ++ sep ++ joinSep sep (y :: xs)

/-- Model of Python `"".join(parts)`. -/
def concatAll : List String → String
  | [] => ""
  | x :: xs => x ++ concatAll xs

/-- Splits a character list at every occurrence of `sep`, keeping empty
pieces, exactly like Python `str.split` with an explicit separator. -/
def splitChar (sep : Char) : List Char → List (List Char)
  | [] => [[]]
  | c :: rest =>
    let r := splitChar sep rest
    if c = sep then [] :: r
    else
      match r with
      | [] => [[c]]
      | h :: t => (c :: h) :: t

/-- Model of Python `s.split(sep)` for a one-character separator. -/
def pySplit (s : String) (sep : Char) : List String :=
  (splitChar sep s.data).map String.mk

/-- Model of Python `str.strip()`: remove whitespace from both ends. -/
def pyStrip (s : String) : String :=
  let l := s.data.dropWhile (fun c => c.isWhitespace)
  String.mk ((l.reverse.dropWhile (fun c => c.isWhitespace)).reverse)

/-- Model of Python `s.startswith(p)`. -/
def strStarts (s p : String) : Bool := p.data.isPrefixOf s.data

/-- The decimal digit character for `n % 10`. -/
def digitChar (n : Nat) : Char := Char.ofNat (48 + n % 10)

/-- Little-endian decimal digits of `n`, with explicit fuel so that the
definition is structurally recursive and kernel-reducible. -/
def digitsRevFuel : Nat → Nat → List Char
  | 0, _ => []
  | fuel + 1, n => if n < 10 then [digitChar n] else digitChar n :: digitsRevFuel fuel (n / 10)

/-- Model of Python `str(n)` for a natural number. -/
def natRepr (n : Nat) : String := String.mk (digitsRevFuel (n + 1) n).reverse

/-- Model of Python `html.escape` on one character. -/
def escChar (c : Char) : String :=
  if c = '&' then "&amp;"
  else if c = '<' then "&lt;"
  else if c = '>' then "&gt;"
  else if c = Char.ofNat 34 then "&quot;"
  else if c = Char.ofNat 39 then "&#x27;"
  else String.mk [c]

/-- Embedding of `html.escape` as used by `run_to_html`. -/
def htmlEscape (s : String) : String := concatAll (s.data.map escChar)

/-- One pass of `re.sub(r"[^a-zA-Z0-9]+", "-", s)`: each maximal run of
non-alphanumeric characters becomes a single dash.  The flag records whether
the previous character was part of such a run. -/
def collapseNon (inRun : Bool) : List Char → List Char
  | [] => []
  | c :: rest =>
    if c.isAlphanum then c :: collapseNon false rest
    else if inRun then collapseNon true rest
    else '-' :: collapseNon true rest

/-- Embedding of `sanitize` (with the call sites' fixed `maxlen=40`):
collapse non-alphanumerics to dashes, strip dashes, lowercase, truncate. -/
def sanitize (s : String) : String :=
  if s = "" then ""
  else
    let collapsed := collapseNon false s.data
    let stripped :=
      ((collapsed.dropWhile (fun c => c = '-')).reverse.dropWhile (fun c => c = '-')).reverse
    String.mk ((stripped.map lowChar).take 40)

/-- Two-digit uppercase hex of one byte, the model of `f"{b:02X}"`. -/
def toHex2 (n : Nat) : String :=
  let digit := fun (m : Nat) => if m < 10 then Char.ofNat (48 + m) else Char.ofNat (55 + m)
  String.mk [digit (n / 16 % 16), digit (n % 16)]

/-- Embedding of `rgb_to_hex` on an RGB byte triple. -/
def rgb_to_hex (r g b : Nat) : String := "#" ++ toHex2 r ++ toHex2 g ++ toHex2 b

/-- Python `dict.fromkeys` ordering: first occurrence of each key is kept. -/
def dedupFirstAux (seen : List String) : List String → List String
  | [] => []
  | x :: xs => if x ∈ seen then dedupFirstAux seen xs else x :: dedupFirstAux (x :: seen) xs

/-- Embedding of `list(dict.fromkeys(l))`. -/
def dedupFirst (l : List String) : List String := dedupFirstAux [] l

/-- Association-list model of a Python `dict` keyed by strings. -/
abbrev Dict := List (String × String)

/-- Model of `d[k] = v`. -/
def dictSet (d : Dict) (k v : String) : Dict :=
  if d.any (fun p => p.1 == k) then d.map (fun p => if p.1 == k then (k, v) else p)
  else d ++ [(k, v)]

/-- Model of `d.setdefault(k, v)`. -/
def dictSetD (d : Dict) (k v : String) : Dict :=
  if d.any (fun p => p.1 == k) then d else d ++ [(k, v)]

/-- Model of `d.get(k)` (returns `none` for a missing key). -/
def dictGet (d : Dict) (k : String) : Option String :=
  (d.find? (fun p => p.1 == k)).map (fun p => p.2)

/-- The hardcoded fallback palette `THEME_COLOR_MAP`, in source order. -/
def THEME_COLOR_MAP : Dict :=
  [("ACCENT1", "#4472C4"), ("ACCENT_1", "#4472C4"),
   ("ACCENT2", "#ED7D31"), ("ACCENT_2", "#ED7D31"),
   ("ACCENT3", "#A5A5A5"), ("ACCENT_3", "#A5A5A5"),
   ("ACCENT4", "#FFC000"), ("ACCENT_4", "#FFC000"),
   ("ACCENT5", "#5B9BD5"), ("ACCENT_5", "#5B9BD5"),
   ("ACCENT6", "#70AD47"), ("ACCENT_6", "#70AD47"),
   ("TEXT1", "#000000"), ("TEXT_1", "#000000"),
   ("TEXT2", "#FFFFFF"), ("TEXT_2", "#FFFFFF"),
   ("BACKGROUND1", "#FFFFFF"), ("BACKGROUND_1", "#FFFFFF"),
   ("BACKGROUND2", "#000000"), ("BACKGROUND_2", "#000000")]

/-- Outcome of reading a color attribute (`run.font.color` or
`cell.fill.fore_color`): an RGB value, a theme-slot reference (recording the
string the code obtains via `str(...)`), no color, or an exception raised
during access, which the code swallows. -/
inductive ColorAccess where
  | raise : ColorAccess
  | rgb (r g b : Nat) : ColorAccess
  | theme (s : String) : ColorAccess
  | noColor : ColorAccess
deriving DecidableEq

/-- The run-level font attributes `run_to_html` reads. -/
structure Font where
  color : ColorAccess
  bold : Bool
  italic : Bool
  underline : Bool
  name : Option String
  size : Option Nat
deriving DecidableEq

/-- A text run. -/
structure Run where
  text : String
  font : Font
deriving DecidableEq

/-- Paragraph alignment values as compared against `PP_ALIGN`. -/
inductive PPAlign where
  | center
  | right
  | left
  | other
deriving DecidableEq

/-- A paragraph: its runs, indentation level, whether `_pPr` carries a
`buChar` element, and its alignment attribute (`none` when unset). -/
structure Para where
  runs : List Run
  level : Nat
  buChar : Bool
  alignment : Option PPAlign
deriving DecidableEq

/-- A table cell: paragraphs of its text frame, its fill's fore-color access
outcome, and the merge metadata used by `process_table`. -/
structure Cell where
  paragraphs : List Para
  fill : ColorAccess
  is_spanned : Bool
  span_width : Nat
  span_height : Nat
deriving DecidableEq

/-- The default cell used for out-of-range indexing (never reached on
well-formed tables, where the grid is `rows × cols`). -/
def defaultCell : Cell := ⟨[], ColorAccess.noColor, false, 1, 1⟩

/-- A table: the cell grid (`len(table.rows)` rows) and the column count
`len(table.columns)`. -/
structure Table where
  grid : List (List Cell)
  cols : Nat
deriving DecidableEq

/-- Model of `table.cell(r, c)`. -/
def Table.cellAt (t : Table) (r c : Nat) : Cell := (t.grid.getD r []).getD c defaultCell

/-- One `a:clrScheme` child element: its raw XML tag and the `val` of its
`a:srgbClr` descendant when one is found. -/
structure ThemeEl where
  tag : String
  srgb : Option String
deriving DecidableEq

/-- A presentation: slides (each a list of shapes, where a shape is `some`
table or a non-table shape) and the parsed color scheme (`none` models the
parse failure / absent scheme the code swallows). -/
structure Prs where
  slides : List (List (Option Table))
  scheme : Option (List ThemeEl)
deriving DecidableEq

/-- The last element of a split, the model of Python `split(...)[-1]`. -/
def lastStr (l : List String) : String := l.getLastD ""

/-- Embedding of `extract_theme_colors`: record each scheme element's hex
under its uppercased local tag name, then fill every missing slot of
`THEME_COLOR_MAP` via `setdefault`. -/
def extract_theme_colors (prs : Prs) : Dict :=
  let base :=
    match prs.scheme with
    | none => []
    | some els =>
      els.foldl (fun th el =>
        let key := strUpper (lastStr (pySplit el.tag (Char.ofNat 125)))
        match el.srgb with
        | some v => dictSet th key ("#" ++ v)
        | none => th) []
  THEME_COLOR_MAP.foldl (fun th kv => dictSetD th (strUpper kv.1) kv.2) base

/-- Embedding of `bg_classes`. -/
def bg_classes (hexColor : Option String) (semantic : Option String) (st : Registry) :
    List String × Registry :=
  match hexColor with
  | none => ([], st)
  | some h =>
    if h = "" then ([], st)
    else
      let key := strUpper (strDrop h 1)
      let clsHex := "bg-" ++ key
      let st1 := add_css st ("." ++ clsHex) ("background-color:" ++ h ++ ";")
      match semantic with
      | none => ([clsHex], st1)
      | some sem =>
        if sem = "" then ([clsHex], st1)
        else
          let clsSem := "bg-" ++ sanitize sem
          ([clsSem, clsHex], add_css st1 ("." ++ clsSem) ("background-color:" ++ h ++ ";"))

/-- Embedding of `text_color_class`. -/
def text_color_class (hexColor : Option String) (st : Registry) : List String × Registry :=
  match hexColor with
  | none => ([], st)
  | some h =>
    if h = "" then ([], st)
    else
      let cls := "text-" ++ strUpper (strDrop h 1)
      ([cls], add_css st ("." ++ cls) ("color:" ++ h ++ ";"))

/-- Embedding of `font_family_class`. -/
def font_family_class (name : Option String) (st : Registry) : List String × Registry :=
  match name with
  | none => ([], st)
  | some n =>
    if n = "" then ([], st)
    else
      let cls := "ff-" ++ sanitize n
      ([cls], add_css st ("." ++ cls) ("font-family:\x27" ++ n ++ "\x27;"))

/-- Embedding of `font_size_class` (the argument is `int(run.font.size.pt)`). -/
def font_size_class (pt : Nat) (st : Registry) : List String × Registry :=
  if pt = 0 then ([], st)
  else
    let cls := "fs-" ++ natRepr pt
    ([cls], add_css st ("." ++ cls) ("font-size:" ++ natRepr pt ++ "pt;"))

/-- The three guarded class computations of `run_to_html` (color, font
family, font size), each of which contributes no class when the attribute is
absent or its access raised. -/
def runClasses (f : Font) (theme : Dict) (st : Registry) : List String × Registry :=
  let c1 :=
    match f.color with
    | ColorAccess.raise => ([], st)
    | ColorAccess.rgb r g b => text_color_class (some (rgb_to_hex r g b)) st
    | ColorAccess.theme t =>
      text_color_class (dictGet theme (strUpper (lastStr (pySplit t '.')))) st
    | ColorAccess.noColor => ([], st)
  let c2 := font_family_class f.name c1.2
  let c3 :=
    match f.size with
    | none => ([], c2.2)
    | some pt => if pt = 0 then ([], c2.2) else font_size_class pt c2.2
  (c1.1 ++ c2.1 ++ c3.1, c3.2)

/-- Embedding of `run_to_html`: escape the text, compute classes, wrap in a
span when classes exist, then wrap bold, italic, underline in that order
(so the underline tag ends up outermost). -/
def run_to_html (run : Run) (theme : Dict) (st : Registry) : String × Registry :=
  let text := htmlEscape run.text
  if text = "" then ("", st)
  else
    let cs := runClasses run.font theme st
    let span0 :=
      if cs.1 = [] then text
      else "<span class=\"" ++ joinSep " " (dedupFirst cs.1) ++ "\">" ++ text ++ "</span>"
    let span1 := if run.font.bold then "<b>" ++ span0 ++ "</b>" else span0
    let span2 := if run.font.italic then "<i>" ++ span1 ++ "</i>" else span1
    let span3 := if run.font.underline then "<u>" ++ span2 ++ "</u>" else span2
    (span3, cs.2)

/-- Threads the registry through a list of renderings, collecting results. -/
def mapState (f : α → Registry → β × Registry) : List α → Registry → List β × Registry
  | [], st => ([], st)
  | x :: xs, st =>
    let p := f x st
    let q := mapState f xs p.2
    (p.1 :: q.1, q.2)

/-- Whether `para_to_html` classifies the paragraph as a bullet item:
indentation level above zero, or explicit bullet-character formatting. -/
def bulletPara (p : Para) : Bool := decide (0 < p.level) || p.buChar

/-- Embedding of `para_to_html`: join the runs, strip whitespace, drop empty
output, and wrap bullet paragraphs in a list item. -/
def para_to_html (p : Para) (theme : Dict) (st : Registry) : String × Registry :=
  let parts := mapState (fun r s => run_to_html r theme s) p.runs st
  let content := pyStrip (concatAll parts.1)
  if content = "" then ("", parts.2)
  else if 0 < p.level then ("<li>" ++ content ++ "</li>", parts.2)
  else if p.buChar then ("<li>" ++ content ++ "</li>", parts.2)
  else (content, parts.2)

/-- Embedding of `cell_content`: render paragraphs, drop empties, wrap the
whole sequence in one `ul` when any item starts with a list-item tag, else
join with line breaks. -/
def cell_content (cell : Cell) (theme : Dict) (st : Registry) : String × Registry :=
  let ms := mapState (fun p s => para_to_html p theme s) cell.paragraphs st
  let items := ms.1.filter (fun i => i != "")
  (if items = [] then ""
   else if items.any (fun i => strStarts i "<li>") then "<ul>" ++ concatAll items ++ "</ul>"
   else joinSep "<br/>" items, ms.2)

/-- Embedding of `cell_classes`: base class, background classes from the
fill, one alignment class from the first paragraph (left on any failure),
deduplicated in first-seen order and space-joined. -/
def cell_classes (cell : Cell) (theme : Dict) (st : Registry) : String × Registry :=
  let bg :=
    match cell.fill with
    | ColorAccess.raise => ([], st)
    | ColorAccess.rgb r g b => bg_classes (some (rgb_to_hex r g b)) none st
    | ColorAccess.theme t =>
      let semantic := strLower (lastStr (pySplit t '.'))
      match dictGet theme (strUpper semantic) with
      | none => ([], st)
      | some hx => if hx = "" then ([], st) else bg_classes (some hx) (some semantic) st
    | ColorAccess.noColor => ([], st)
  let al :=
    match cell.paragraphs with
    | [] => ("align-left", add_css bg.2 ".align-left" "text-align:left;")
    | p :: _ =>
      match p.alignment with
      | some PPAlign.center => ("align-center", add_css bg.2 ".align-center" "text-align:center;")
      | some PPAlign.right => ("align-right", add_css bg.2 ".align-right" "text-align:right;")
      | _ => ("align-left", add_css bg.2 ".align-left" "text-align:left;")
  let st3 := add_css al.2 ".ppt-cell" "border:1px solid #999;padding:6px;vertical-align:middle;"
  (joinSep " " (dedupFirst (["ppt-cell"] ++ bg.1 ++ [al.1])), st3)

/-- Embedding of `process_table`: walk rows and columns in index order, skip
spanned cells, emit a `td` with the recorded span for each anchor cell. -/
def process_table (table : Table) (theme : Dict) (st : Registry) : String × Registry :=
  let rows :=
    (List.range table.grid.length).foldl (fun acc r =>
      let cols :=
        (List.range table.cols).foldl (fun acc2 c =>
          let cell := table.cellAt r c
          if cell.is_spanned then acc2
          else
            let ct := cell_content cell theme acc2.2
            let cl := cell_classes cell theme ct.2
            (acc2.1 ++
              ["<td colspan=\"" ++ natRepr cell.span_width ++ "\" rowspan=\"" ++
                natRepr cell.span_height ++ "\" class=\"" ++ cl.1 ++ "\">" ++ ct.1 ++ "</td>"],
              cl.2))
          ([], acc.2)
      (acc.1 ++ ["<tr>" ++ concatAll cols.1 ++ "</tr>"], cols.2))
      ([], st)
  let st2 := add_css rows.2 ".ppt-table" "border-collapse:collapse;width:100%;font-size:14px;"
  let st3 := add_css st2 ".ppt-table ul" "margin:0 0 0 18px;padding:0;"
  (joinSep "\n" rows.1, st3)

/-- Embedding of `pptx_to_html`: clear the registry, extract the theme, walk
slides and shapes collecting table blocks, then assemble the stylesheet and
the fragment section.  The incoming registry models the global's prior value
and is discarded by the initial `GENERATED_CSS.clear()`. -/
def pptx_to_html (prs : Prs) (_st : Registry) : String × Registry :=
  let st0 : Registry := []
  let theme := extract_theme_colors prs
  let bl :=
    prs.slides.foldl (fun acc slide =>
      slide.foldl (fun acc2 shape =>
        match shape with
        | some table =>
          let pt := process_table table theme acc2.2
          (acc2.1 ++ ["<table class=\x27ppt-table\x27>" ++ pt.1 ++ "</table>"], pt.2)
        | none => acc2) acc) ([], st0)
  let css := "<style>\n" ++ joinSep "\n" bl.2 ++ "\n</style>\n"
  (css ++ joinSep "<br/>" bl.1, bl.2)

/-!
Value characterizations.  Every rendering function returns a string whose
value does not depend on the incoming registry (the registry is only
accumulated).  The `...Val` definitions name those pure values, and the
`..._fst`/`..._val` lemmas prove the projections agree, which lets the
claims be stated against evaluable pure terms.
-/

/-- The class list `text_color_class` returns. -/
def tcValue : Option String → List String
  | none => []
  | some h => if h = "" then [] else ["text-" ++ strUpper (strDrop h 1)]

/-- The class list `font_family_class` returns. -/
def ffValue : Option String → List String
  | none => []
  | some n => if n = "" then [] else ["ff-" ++ sanitize n]

/-- The class list `font_size_class` returns. -/
def fsValue (pt : Nat) : List String := if pt = 0 then [] else ["fs-" ++ natRepr pt]

/-- The class list `bg_classes` returns. -/
def bgValue : Option String → Option String → List String
  | none, _ => []
  | some h, sem =>
    if h = "" then []
    else
      match sem with
      | none => ["bg-" ++ strUpper (strDrop h 1)]
      | some s =>
        if s = "" then ["bg-" ++ strUpper (strDrop h 1)]
        else ["bg-" ++ sanitize s, "bg-" ++ strUpper (strDrop h 1)]

theorem text_color_class_val (h : Option String) (st : Registry) :
    (text_color_class h st).1 = tcValue h := by
  cases h with
  | none => rfl
  | some s => by_cases hs : s = "" <;> simp [text_color_class, tcValue, hs]

theorem font_family_class_val (n : Option String) (st : Registry) :
    (font_family_class n st).1 = ffValue n := by
  cases n with
  | none => rfl
  | some s => by_cases hs : s = "" <;> simp [font_family_class, ffValue, hs]

theorem font_size_class_val (pt : Nat) (st : Registry) :
    (font_size_class pt st).1 = fsValue pt := by
  by_cases hp : pt = 0 <;> simp [font_size_class, fsValue, hp]

theorem bg_classes_val (h sem : Option String) (st : Registry) :
    (bg_classes h sem st).1 = bgValue h sem := by
  cases h with
  | none => rfl
  | some hx =>
    cases sem with
    | none => by_cases hh : hx = "" <;> simp [bg_classes, bgValue, hh]
    | some s =>
      by_cases hh : hx = "" <;> by_cases hs : s = "" <;> simp [bg_classes, bgValue, hh, hs]

/-- The class list `run_to_html` accumulates for a font. -/
def runClassesVal (f : Font) (th : Dict) : List String :=
  (match f.color with
   | ColorAccess.raise => []
   | ColorAccess.rgb r g b => tcValue (some (rgb_to_hex r g b))
   | ColorAccess.theme t => tcValue (dictGet th (strUpper (lastStr (pySplit t '.'))))
   | ColorAccess.noColor => []) ++
  ffValue f.name ++
  (match f.size with
   | none => []
   | some pt => if pt = 0 then [] else fsValue pt)

theorem runClasses_val (f : Font) (th : Dict) (st : Registry) :
    (runClasses f th st).1 = runClassesVal f th := by
  unfold runClasses runClassesVal
  cases f.color <;> cases f.size
  all_goals
    simp [text_color_class_val, font_family_class_val, font_size_class_val]
  all_goals
    rename_i pt
    by_cases hz : pt = 0 <;> simp [hz, font_size_class_val]

/-- The HTML string `run_to_html` produces, as a pure value. -/
def runHtmlVal (r : Run) (th : Dict) : String := (run_to_html r th []).1

theorem run_to_html_fst (r : Run) (th : Dict) (st : Registry) :
    (run_to_html r th st).1 = runHtmlVal r th := by
  by_cases h : htmlEscape r.text = "" <;>
    simp [run_to_html, runHtmlVal, h, runClasses_val]

theorem mapState_fst {α β : Type} (f : α → Registry → β × Registry) (g : α → β)
    (hf : ∀ a st, (f a st).1 = g a) :
    ∀ (l : List α) (st : Registry), (mapState f l st).1 = l.map g := by
  intro l
  induction l with
  | nil => intro st; rfl
  | cons x xs ih => intro st; simp [mapState, hf, ih]

/-- The stripped concatenation of a paragraph's rendered runs. -/
def paraContent (p : Para) (th : Dict) : String :=
  pyStrip (concatAll (p.runs.map (fun r => runHtmlVal r th)))

/-- Characterization of `para_to_html`'s output in terms of content and
bullet classification. -/
theorem para_to_html_char (p : Para) (th : Dict) (st : Registry) :
    (para_to_html p th st).1 =
      if paraContent p th = "" then ""
      else if bulletPara p then "<li>" ++ paraContent p th ++ "</li>"
      else paraContent p th := by
  have hm := mapState_fst (fun r s => run_to_html r th s) (fun r => runHtmlVal r th)
    (fun a s => run_to_html_fst a th s) p.runs
  simp only [para_to_html, hm, paraContent]
  by_cases hc : pyStrip (concatAll (List.map (fun r => runHtmlVal r th) p.runs)) = ""
  · simp [hc]
  · by_cases h0 : 0 < p.level
    · simp [hc, h0, bulletPara]
    · by_cases hb : p.buChar <;> simp [hc, h0, hb, bulletPara]

/-- The HTML string `para_to_html` produces, as a pure value. -/
def paraHtmlVal (p : Para) (th : Dict) : String := (para_to_html p th []).1

theorem para_to_html_fst (p : Para) (th : Dict) (st : Registry) :
    (para_to_html p th st).1 = paraHtmlVal p th := by
  rw [para_to_html_char p th st]
  unfold paraHtmlVal
  rw [para_to_html_char p th []]

/-- The filtered list of non-empty paragraph renderings of a cell. -/
def cellItems (cell : Cell) (th : Dict) : List String :=
  (cell.paragraphs.map (fun p => paraHtmlVal p th)).filter (fun i => i != "")

/-- Characterization of `cell_content`'s output. -/
theorem cell_content_char (cell : Cell) (th : Dict) (st : Registry) :
    (cell_content cell th st).1 =
      if cellItems cell th = [] then ""
      else if (cellItems cell th).any (fun i => strStarts i "<li>") then
        "<ul>" ++ concatAll (cellItems cell th) ++ "</ul>"
      else joinSep "<br/>" (cellItems cell th) := by
  have hm := mapState_fst (fun p s => para_to_html p th s) (fun p => paraHtmlVal p th)
    (fun a s => para_to_html_fst a th s) cell.paragraphs
  simp only [cell_content, cellItems, hm]

/-- The background class list `cell_classes` derives from the fill. -/
def bgListVal (cell : Cell) (th : Dict) : List String :=
  match cell.fill with
  | ColorAccess.raise => []
  | ColorAccess.rgb r g b => bgValue (some (rgb_to_hex r g b)) none
  | ColorAccess.theme t =>
    let semantic := strLower (lastStr (pySplit t '.'))
    match dictGet th (strUpper semantic) with
    | none => []
    | some hx => if hx = "" then [] else bgValue (some hx) (some semantic)
  | ColorAccess.noColor => []

/-- The alignment class `cell_classes` picks from the first paragraph. -/
def alignName (cell : Cell) : String :=
  match cell.paragraphs with
  | [] => "align-left"
  | p :: _ =>
    match p.alignment with
    | some PPAlign.center => "align-center"
    | some PPAlign.right => "align-right"
    | _ => "align-left"

/-- Characterization of `cell_classes`'s output string. -/
theorem cell_classes_char (cell : Cell) (th : Dict) (st : Registry) :
    (cell_classes cell th st).1 =
      joinSep " " (dedupFirst ("ppt-cell" :: (bgListVal cell th ++ [alignName cell]))) := by
  obtain ⟨ps, fill, sp, w, hgt⟩ := cell
  cases fill with
  | raise =>
    cases ps with
    | nil => simp [cell_classes, bgListVal, alignName]
    | cons p pr =>
      cases hA : p.alignment with
      | none => simp [cell_classes, bgListVal, alignName, hA]
      | some a => cases a <;> simp [cell_classes, bgListVal, alignName, hA]
  | rgb r g b =>
    cases ps with
    | nil => simp [cell_classes, bgListVal, alignName, bg_classes_val]
    | cons p pr =>
      cases hA : p.alignment with
      | none => simp [cell_classes, bgListVal, alignName, bg_classes_val, hA]
      | some a => cases a <;> simp [cell_classes, bgListVal, alignName, bg_classes_val, hA]
  | theme t =>
    cases hd : dictGet th (strUpper (strLower (lastStr (pySplit t '.')))) with
    | none =>
      cases ps with
      | nil => simp [cell_classes, bgListVal, alignName, hd]
      | cons p pr =>
        cases hA : p.alignment with
        | none => simp [cell_classes, bgListVal, alignName, hd, hA]
        | some a => cases a <;> simp [cell_classes, bgListVal, alignName, hd, hA]
    | some hx =>
      by_cases hhx : hx = "" <;>
        (cases ps with
         | nil => simp [cell_classes, bgListVal, alignName, hd, hhx, bg_classes_val]
         | cons p pr =>
           cases hA : p.alignment with
           | none => simp [cell_classes, bgListVal, alignName, hd, hhx, bg_classes_val, hA]
           | some a =>
             cases a <;> simp [cell_classes, bgListVal, alignName, hd, hhx, bg_classes_val, hA])
  | noColor =>
    cases ps with
    | nil => simp [cell_classes, bgListVal, alignName]
    | cons p pr =>
      cases hA : p.alignment with
      | none => simp [cell_classes, bgListVal, alignName, hA]
      | some a => cases a <;> simp [cell_classes, bgListVal, alignName, hA]

/-!
Helper lemmas for registry counting and idempotent insertion.
-/

/-- Decides whether a registry rule was generated for the given selector
(the rule string starts with the selector followed by a space). -/
def hasSel (sel r : String) : Bool := (sel ++ " ").data.isPrefixOf r.data

theorem add_css_mem (st : Registry) (sel body : String) :
    ruleFor sel body ∈ add_css st sel body := by
  by_cases h : ruleFor sel body ∈ st <;> simp [add_css, h]

theorem add_css_idem (st : Registry) (sel body : String) :
    add_css (add_css st sel body) sel body = add_css st sel body := by
  have h := add_css_mem st sel body
  show (if ruleFor sel body ∈ add_css st sel body then add_css st sel body
        else add_css st sel body ++ [ruleFor sel body]) = add_css st sel body
  rw [if_pos h]

theorem hasSel_ruleFor (sel body : String) : hasSel sel (ruleFor sel body) = true := by
  unfold hasSel ruleFor
  rw [List.isPrefixOf_iff_prefix]
  refine ⟨("\x7b " ++ body ++ " \x7d").data, ?_⟩
  simp only [String.data_append, List.append_assoc]
  congr 1

theorem countP_add_css_new (st : Registry) (sel body : String)
    (h : List.countP (fun r => hasSel sel r) st = 0) :
    List.countP (fun r => hasSel sel r) (add_css st sel body) = 1 := by
  have hmem : ruleFor sel body ∉ st := by
    intro hm
    have hpos : 0 < List.countP (fun r => hasSel sel r) st :=
      List.countP_pos_iff.mpr ⟨ruleFor sel body, hm, hasSel_ruleFor sel body⟩
    omega
  show List.countP (fun r => hasSel sel r)
      (if ruleFor sel body ∈ st then st else st ++ [ruleFor sel body]) = 1
  rw [if_neg hmem, List.countP_append, h]
  simp [List.countP_cons, hasSel_ruleFor]

theorem bg_classes_snd_idem (c : String) (st : Registry) :
    (bg_classes (some c) none ((bg_classes (some c) none st).2)).2 =
      (bg_classes (some c) none st).2 := by
  by_cases hc : c = "" <;> simp [bg_classes, hc, add_css_idem]

/-- Claim C5 (amended): a second `bg_classes` call with the same color is a
no-op on the registry, and starting from a registry holding no rule for the
class's selector, the two calls together register exactly one rule for it.
(As literally stated over arbitrary prior registries the claim fails, since a
prior rule for the same selector with a differently-cased body survives; see
the counterexample.) -/
theorem claim_C5_amended : ∀ (c : String) (st : Registry),
    (bg_classes (some c) none ((bg_classes (some c) none st).2)).2 =
      (bg_classes (some c) none st).2 ∧
    (c ≠ "" →
      List.countP (fun r => hasSel ("." ++ ("bg-" ++ strUpper (strDrop c 1))) r) st = 0 →
      List.countP (fun r => hasSel ("." ++ ("bg-" ++ strUpper (strDrop c 1))) r)
        ((bg_classes (some c) none ((bg_classes (some c) none st).2)).2) = 1) := by
  intro c st
  refine ⟨bg_classes_snd_idem c st, fun hc h0 => ?_⟩
  rw [bg_classes_snd_idem]
  simp only [bg_classes, hc, if_neg]
  exact countP_add_css_new st _ _ h0

/-- Claim C5 (counterexample): starting from a registry that already holds a
rule for selector `.bg-FF0000` (with a lowercase-hex body, as a theme color
extracted in lowercase produces), two `bg_classes("#FF0000")` calls leave two
rules for that selector, not one. -/
theorem claim_C5_counterexample :
    List.countP (fun r => hasSel ".bg-FF0000" r)
      ((bg_classes (some "#FF0000") none
        ((bg_classes (some "#FF0000") none
          [".bg-FF0000 \x7b background-color:#ff0000; \x7d"]).2)).2) = 2 ∧
    ¬ List.countP (fun r => hasSel ".bg-FF0000" r)
      ((bg_classes (some "#FF0000") none
        ((bg_classes (some "#FF0000") none
          [".bg-FF0000 \x7b background-color:#ff0000; \x7d"]).2)).2) = 1 := by
  constructor
  · decide
  · decide

/-- Witness for the amended claim C5 at the concrete color `#FF0000`. -/
theorem claim_C5_witness :
    (bg_classes (some "#FF0000") none ((bg_classes (some "#FF0000") none []).2)).2 =
      (bg_classes (some "#FF0000") none []).2 ∧
    List.countP (fun r => hasSel ("." ++ ("bg-" ++ strUpper (strDrop "#FF0000" 1))) r)
      ((bg_classes (some "#FF0000") none ((bg_classes (some "#FF0000") none []).2)).2) = 1 :=
  ⟨(claim_C5_amended "#FF0000" []).1,
   (claim_C5_amended "#FF0000" []).2 (by decide) (by decide)⟩

/-- Claim C7: `pptx_to_html` clears the registry at the start of each call,
so its entire output (stylesheet included) and its final registry are
independent of whatever the registry held when the call began. -/
theorem claim_C7_registry_cleared (prs : Prs) (st st' : Registry) :
    pptx_to_html prs st = pptx_to_html prs st' := rfl

/-- The concrete run of the C8 scenario: bold, RGB `#FF0000`, text `Hi`. -/
def runC8 : Run := ⟨"Hi", ⟨ColorAccess.rgb 255 0 0, true, false, false, none, none⟩⟩

/-- Claim C8: the scenario run renders as the bold-wrapped colored span and
registers exactly the `.text-FF0000` color rule. -/
theorem claim_C8_scenario :
    (run_to_html runC8 [] []).1 = "<b><span class=\"text-FF0000\">Hi</span></b>" ∧
    (run_to_html runC8 [] []).2 = [".text-FF0000 \x7b color:#FF0000; \x7d"] ∧
    ".text-FF0000 \x7b color:#FF0000; \x7d" ∈ (run_to_html runC8 [] []).2 := by
  refine ⟨by decide, by decide, by decide⟩

/-- The all-flags run used to refute the claimed C1 nesting order. -/
def runC1 : Run := ⟨"x", ⟨ColorAccess.noColor, true, true, true, none, none⟩⟩

/-- Claim C1 (counterexample): with bold, italic and underline all set the
code produces `<u><i><b>x</b></i></u>`, not the claimed
`<b><i><u>x</u></i></b>`: the underline tag is outermost, not bold. -/
theorem claim_C1_counterexample :
    (run_to_html runC1 [] []).1 = "<u><i><b>x</b></i></u>" ∧
    (run_to_html runC1 [] []).1 ≠ "<b><i><u>x</u></i></b>" := by
  constructor
  · decide
  · decide

/-- The font with the three wrapping flags cleared. -/
def noflag (f : Font) : Font := { f with bold := false, italic := false, underline := false }

/-- Claim C1 (amended): for a run with non-empty escaped text, the applied
tags nest in the fixed order underline outermost, then italic, then bold
innermost, around the class-span core; for any subset of the three flags the
same nesting order applies. -/
theorem claim_C1_amended : ∀ (r : Run) (th : Dict) (st : Registry),
    htmlEscape r.text ≠ "" →
    (run_to_html r th st).1 =
      (let core := runHtmlVal { r with font := noflag r.font } th
       let wb := if r.font.bold then "<b>" ++ core ++ "</b>" else core
       let wi := if r.font.italic then "<i>" ++ wb ++ "</i>" else wb
       if r.font.underline then "<u>" ++ wi ++ "</u>" else wi) := by
  intro r th st h
  obtain ⟨t, f⟩ := r
  obtain ⟨co, bo, it, un, na, sz⟩ := f
  simp only at h
  have hfl : runClassesVal ⟨co, bo, it, un, na, sz⟩ th =
      runClassesVal ⟨co, false, false, false, na, sz⟩ th := rfl
  simp [run_to_html, runHtmlVal, noflag, h, runClasses_val, hfl]

/-- Witness for the amended claim C1 at the all-flags run. -/
theorem claim_C1_witness :
    (run_to_html runC1 [] []).1 =
      (let core := runHtmlVal { runC1 with font := noflag runC1.font } []
       let wb := if runC1.font.bold then "<b>" ++ core ++ "</b>" else core
       let wi := if runC1.font.italic then "<i>" ++ wb ++ "</i>" else wb
       if runC1.font.underline then "<u>" ++ wi ++ "</u>" else wi) :=
  claim_C1_amended runC1 [] [] (by decide)

/-- The presentation whose scheme carries an extracted `accent1` value. -/
def prsC2 : Prs := ⟨[], some [⟨"\x7bns\x7daccent1", some "123456"⟩]⟩

/-- Claim C2 (counterexample): when `accent1` is extracted from the scheme,
`ACCENT1` holds the extracted value while the alias `ACCENT_1` keeps the
default palette value, so the two spellings disagree. -/
theorem claim_C2_counterexample :
    dictGet (extract_theme_colors prsC2) "ACCENT1" = some "#123456" ∧
    dictGet (extract_theme_colors prsC2) "ACCENT_1" = some "#4472C4" ∧
    dictGet (extract_theme_colors prsC2) "ACCENT1" ≠
      dictGet (extract_theme_colors prsC2) "ACCENT_1" := by
  refine ⟨by decide, by decide, by decide⟩

/-- Claim C2 (amended): when no scheme value was extracted, every slot of the
default palette (both its underscored and non-underscored spellings) resolves
to its default hex, so the two spellings of each slot agree; an extracted
value is recorded only under the tag-derived spelling. -/
theorem claim_C2_amended : ∀ (prs : Prs), prs.scheme = none →
    ∀ kv ∈ THEME_COLOR_MAP, dictGet (extract_theme_colors prs) kv.1 = some kv.2 := by
  intro prs h kv hm
  have he : extract_theme_colors prs = extract_theme_colors ⟨[], none⟩ := by
    simp [extract_theme_colors, h]
  rw [he]
  simp only [THEME_COLOR_MAP, List.mem_cons, List.not_mem_nil, or_false] at hm
  rcases hm with rfl | rfl | rfl | rfl | rfl | rfl | rfl | rfl | rfl | rfl | rfl | rfl | rfl |
    rfl | rfl | rfl | rfl | rfl | rfl | rfl <;> decide

/-- Witness for the amended claim C2 at the scheme-less presentation. -/
theorem claim_C2_witness :
    (⟨[], none⟩ : Prs).scheme = none ∧
    dictGet (extract_theme_colors ⟨[], none⟩) "ACCENT1" = some "#4472C4" :=
  ⟨rfl, claim_C2_amended ⟨[], none⟩ rfl ("ACCENT1", "#4472C4") (by decide)⟩

/-!
Lemmas for the zero-table conversion (claim C9).
-/

theorem foldl_shape_none {β : Type} (step : β → Option Table → β)
    (hstep : ∀ a, step a none = a) :
    ∀ (sl : List (Option Table)) (a : β), (∀ x ∈ sl, x = none) → sl.foldl step a = a := by
  intro sl
  induction sl with
  | nil => intro a _; rfl
  | cons x xs ih =>
    intro a h
    have hx : x = none := h x (by simp)
    rw [List.foldl_cons, hx, hstep]
    exact ih a (fun y hy => h y (List.mem_cons_of_mem _ hy))

theorem foldl_slides_none {β : Type} (step : β → Option Table → β)
    (hstep : ∀ a, step a none = a) :
    ∀ (sls : List (List (Option Table))) (a : β),
      (∀ sl ∈ sls, ∀ x ∈ sl, x = none) →
      sls.foldl (fun acc sl => sl.foldl step acc) a = a := by
  intro sls
  induction sls with
  | nil => intro a _; rfl
  | cons s ss ih =>
    intro a h
    rw [List.foldl_cons, foldl_shape_none step hstep s a (h s (by simp))]
    exact ih a (fun sl hsl x hx => h sl (List.mem_cons_of_mem _ hsl) x hx)

/-- Claim C9: converting a parsable document with no table-bearing shape
returns normally, producing a stylesheet block followed by an empty
table-fragment section. -/
theorem claim_C9_no_tables : ∀ (prs : Prs) (st : Registry),
    (∀ slide ∈ prs.slides, ∀ shape ∈ slide, shape = none) →
    (pptx_to_html prs st).1 = "<style>\n\n</style>\n" := by
  intro prs st h
  simp only [pptx_to_html]
  rw [foldl_slides_none _ (fun a => rfl) prs.slides _ h]
  decide

/-- Witness for claim C9 on a two-slide document with one non-table shape. -/
theorem claim_C9_witness :
    (∀ slide ∈ ([[none], []] : List (List (Option Table))), ∀ shape ∈ slide, shape = none) ∧
    (pptx_to_html ⟨[[none], []], none⟩ ["junk"]).1 = "<style>\n\n</style>\n" :=
  ⟨by decide, claim_C9_no_tables ⟨[[none], []], none⟩ ["junk"] (by decide)⟩

/-!
Claim C3: spanned-cell handling in `process_table`.
-/

theorem cell_content_fst (cell : Cell) (th : Dict) (st : Registry) :
    (cell_content cell th st).1 = (cell_content cell th []).1 := by
  rw [cell_content_char, cell_content_char]

theorem cell_classes_fst (cell : Cell) (th : Dict) (st : Registry) :
    (cell_classes cell th st).1 = (cell_classes cell th []).1 := by
  rw [cell_classes_char, cell_classes_char]

/-- The `td` element emitted for an anchor cell: colspan/rowspan from the
cell's recorded merge span, then classes and content. -/
def tdHtml (cell : Cell) (th : Dict) : String :=
  "<td colspan=\"" ++ natRepr cell.span_width ++ "\" rowspan=\"" ++
    natRepr cell.span_height ++ "\" class=\"" ++ (cell_classes cell th []).1 ++ "\">" ++
    (cell_content cell th []).1 ++ "</td>"

/-- The `td` strings of one row: the row's cells in column order, spanned
cells removed, each remaining anchor rendered by `tdHtml`. -/
def rowTds (table : Table) (th : Dict) (r : Nat) : List String :=
  (((List.range table.cols).map (table.cellAt r)).filter
    (fun cl => !cl.is_spanned)).map (fun cl => tdHtml cl th)

theorem foldl_td_char (table : Table) (th : Dict) (r : Nat) :
    ∀ (cs : List Nat) (acc : List String) (st : Registry),
      (cs.foldl (fun acc2 c =>
        let cell := table.cellAt r c
        if cell.is_spanned then acc2
        else
          let ct := cell_content cell th acc2.2
          let cl := cell_classes cell th ct.2
          (acc2.1 ++
            ["<td colspan=\"" ++ natRepr cell.span_width ++ "\" rowspan=\"" ++
              natRepr cell.span_height ++ "\" class=\"" ++ cl.1 ++ "\">" ++ ct.1 ++ "</td>"],
            cl.2)) (acc, st)).1 =
      acc ++ ((cs.map (table.cellAt r)).filter
        (fun cl => !cl.is_spanned)).map (fun cl => tdHtml cl th) := by
  intro cs
  induction cs with
  | nil => intro acc st; simp
  | cons c cs ih =>
    intro acc st
    rw [List.foldl_cons]
    by_cases hsp : (table.cellAt r c).is_spanned
    · simp [hsp, ih]
    · simp only [hsp]
      simp only [Bool.false_eq_true, if_false]
      rw [ih]
      simp [tdHtml, hsp, cell_content_fst, cell_classes_fst]

theorem foldl_row_char (table : Table) (th : Dict) :
    ∀ (rs : List Nat) (acc : List String) (st : Registry),
      (rs.foldl (fun acc r =>
        let cols :=
          (List.range table.cols).foldl (fun acc2 c =>
            let cell := table.cellAt r c
            if cell.is_spanned then acc2
            else
              let ct := cell_content cell th acc2.2
              let cl := cell_classes cell th ct.2
              (acc2.1 ++
                ["<td colspan=\"" ++ natRepr cell.span_width ++ "\" rowspan=\"" ++
                  natRepr cell.span_height ++ "\" class=\"" ++ cl.1 ++ "\">" ++ ct.1 ++ "</td>"],
                cl.2))
            ([], acc.2)
        (acc.1 ++ ["<tr>" ++ concatAll cols.1 ++ "</tr>"], cols.2)) (acc, st)).1 =
      acc ++ rs.map (fun r => "<tr>" ++ concatAll (rowTds table th r) ++ "</tr>") := by
  intro rs
  induction rs with
  | nil => intro acc st; simp
  | cons r rs ih =>
    intro acc st
    rw [List.foldl_cons]
    have hrow := foldl_td_char table th r (List.range table.cols) [] st
    simp only []
    rw [ih]
    simp [hrow, rowTds, List.append_assoc]

/-- The 2x2 scenario of claim C3: plain unstyled text cells, top-left anchor
merged across both columns, its right neighbour marked spanned. -/
def plainPara (t : String) : Para :=
  ⟨[⟨t, ⟨ColorAccess.noColor, false, false, false, none, none⟩⟩], 0, false, none⟩

/-- A plain cell of the scenario with the given merge metadata. -/
def plainCell (t : String) (sp : Bool) (w h : Nat) : Cell :=
  ⟨[plainPara t], ColorAccess.raise, sp, w, h⟩

/-- The scenario table of claim C3. -/
def ex2x2 : Table :=
  ⟨[[plainCell "A" false 2 1, plainCell "B" true 1 1],
    [plainCell "C" false 1 1, plainCell "D" false 1 1]], 2⟩

set_option maxRecDepth 8000 in
/-- Claim C3: `process_table` omits every spanned cell from the row HTML and
emits, for each anchor cell, colspan/rowspan equal to the recorded span
(1 for unmerged cells); on the 2x2 scenario, row 1 holds exactly the single
colspan-2 `td` for A (B's cell skipped) and row 2 the two plain cells. -/
theorem claim_C3_spans :
    (∀ (table : Table) (th : Dict) (st : Registry),
      (process_table table th st).1 =
        joinSep "\n" ((List.range table.grid.length).map
          (fun r => "<tr>" ++ concatAll (rowTds table th r) ++ "</tr>"))) ∧
    (process_table ex2x2 [] []).1 =
      "<tr><td colspan=\"2\" rowspan=\"1\" class=\"ppt-cell align-left\">A</td></tr>\n" ++
      "<tr><td colspan=\"1\" rowspan=\"1\" class=\"ppt-cell align-left\">C</td>" ++
      "<td colspan=\"1\" rowspan=\"1\" class=\"ppt-cell align-left\">D</td></tr>" := by
  constructor
  · intro table th st
    simp only [process_table]
    rw [foldl_row_char table th (List.range table.grid.length) [] st]
    simp
  · have h : (process_table ex2x2 [] []).1 =
        "<tr><td colspan=\"2\" rowspan=\"1\" class=\"ppt-cell align-left\">A</td></tr>\n<tr><td colspan=\"1\" rowspan=\"1\" class=\"ppt-cell align-left\">C</td><td colspan=\"1\" rowspan=\"1\" class=\"ppt-cell align-left\">D</td></tr>" := by
      decide
    rw [h]
    decide

/-!
Claim C6: alignment classification is total and defaults to left.
-/

/-- Whether a class name is one of the three alignment classes. -/
def isAlignCls (s : String) : Bool :=
  s == "align-left" || s == "align-center" || s == "align-right"

theorem dedupFirstAux_sub (x : String) (l : List String) :
    ∀ (seen : List String), x ∈ dedupFirstAux seen l → x ∈ l := by
  induction l with
  | nil => intro seen h; simp [dedupFirstAux] at h
  | cons y ys ih =>
    intro seen h
    unfold dedupFirstAux at h
    by_cases hy : y ∈ seen
    · rw [if_pos hy] at h
      exact List.mem_cons_of_mem _ (ih seen h)
    · rw [if_neg hy] at h
      rcases List.mem_cons.mp h with h1 | h1
      · exact h1 ▸ List.mem_cons_self _ _
      · exact List.mem_cons_of_mem _ (ih _ h1)

theorem dedupFirstAux_mem (x : String) (l : List String) :
    ∀ (seen : List String), x ∈ l → x ∉ seen → x ∈ dedupFirstAux seen l := by
  induction l with
  | nil => intro seen h _; simp at h
  | cons y ys ih =>
    intro seen hx hn
    unfold dedupFirstAux
    by_cases hy : y ∈ seen
    · rw [if_pos hy]
      rcases List.mem_cons.mp hx with h1 | h1
      · exact absurd (h1 ▸ hy) hn
      · exact ih seen h1 hn
    · rw [if_neg hy]
      rcases List.mem_cons.mp hx with h1 | h1
      · exact h1 ▸ List.mem_cons_self _ _
      · by_cases hxy : x = y
        · exact hxy ▸ List.mem_cons_self _ _
        · exact List.mem_cons_of_mem _ (ih (y :: seen) h1 (by simp [hxy, hn]))

theorem dedupFirstAux_not_mem (x : String) (l : List String) :
    ∀ (seen : List String), x ∈ seen → x ∉ dedupFirstAux seen l := by
  induction l with
  | nil => intro seen _ h; simp [dedupFirstAux] at h
  | cons y ys ih =>
    intro seen hs h
    unfold dedupFirstAux at h
    by_cases hy : y ∈ seen
    · rw [if_pos hy] at h
      exact ih seen hs h
    · rw [if_neg hy] at h
      rcases List.mem_cons.mp h with h1 | h1
      · exact hy (h1 ▸ hs)
      · exact ih (y :: seen) (List.mem_cons_of_mem _ hs) h1

theorem dedupFirstAux_nodup (l : List String) :
    ∀ (seen : List String), (dedupFirstAux seen l).Nodup := by
  induction l with
  | nil => intro seen; simp [dedupFirstAux]
  | cons y ys ih =>
    intro seen
    unfold dedupFirstAux
    by_cases hy : y ∈ seen
    · rw [if_pos hy]; exact ih seen
    · rw [if_neg hy]
      refine List.nodup_cons.mpr ⟨?_, ih (y :: seen)⟩
      exact dedupFirstAux_not_mem y ys (y :: seen) (List.mem_cons_self _ _)

theorem eq_singleton_of_uniform {α : Type} (l : List α) (a : α) (hn : l.Nodup)
    (hu : ∀ x ∈ l, x = a) (hm : a ∈ l) : l = [a] := by
  cases l with
  | nil => simp at hm
  | cons b t =>
    have hb : b = a := hu b (List.mem_cons_self _ _)
    subst hb
    cases t with
    | nil => rfl
    | cons c u =>
      have hc : c = b := hu c (by simp)
      subst hc
      have hnm : c ∉ c :: u := (List.nodup_cons.mp hn).1
      exact absurd (List.mem_cons_self c u) hnm

theorem count_align_one (bgl : List String) (al : String)
    (hbg : ∀ x ∈ bgl, isAlignCls x = false) (hal : isAlignCls al = true) :
    List.countP isAlignCls (dedupFirst ("ppt-cell" :: (bgl ++ [al]))) = 1 := by
  have hmem : al ∈ dedupFirst ("ppt-cell" :: (bgl ++ [al])) := by
    refine dedupFirstAux_mem al _ [] ?_ (by simp)
    simp
  have hsub : ∀ x ∈ dedupFirst ("ppt-cell" :: (bgl ++ [al])), isAlignCls x = true → x = al := by
    intro x hx hxa
    have hin := dedupFirstAux_sub x _ [] hx
    rcases List.mem_cons.mp hin with h1 | h1
    · subst h1; simp [isAlignCls] at hxa
    · rcases List.mem_append.mp h1 with h2 | h2
      · exact absurd hxa (by simp [hbg x h2])
      · simpa using h2
  have hfil : (dedupFirst ("ppt-cell" :: (bgl ++ [al]))).filter isAlignCls = [al] := by
    refine eq_singleton_of_uniform _ al ?_ ?_ ?_
    · exact List.Nodup.filter _ (dedupFirstAux_nodup _ [])
    · intro x hx
      have := List.mem_filter.mp hx
      exact hsub x this.1 this.2
    · exact List.mem_filter.mpr ⟨hmem, hal⟩
  rw [List.countP_eq_length_filter, hfil]
  rfl

theorem bgValue_shape (h s : Option String) (x : String) (hx : x ∈ bgValue h s) :
    ∃ t, x = "bg-" ++ t := by
  cases h with
  | none => simp [bgValue] at hx
  | some hex =>
    by_cases hh : hex = ""
    · simp [bgValue, hh] at hx
    · cases s with
      | none =>
        simp [bgValue, hh] at hx
        exact ⟨_, hx⟩
      | some sem =>
        by_cases hs : sem = ""
        · simp [bgValue, hh, hs] at hx
          exact ⟨_, hx⟩
        · simp [bgValue, hh, hs] at hx
          rcases hx with h1 | h1 <;> exact ⟨_, h1⟩

theorem bgListVal_shape (cell : Cell) (th : Dict) :
    ∀ x ∈ bgListVal cell th, ∃ t, x = "bg-" ++ t := by
  intro x hx
  obtain ⟨ps, fill, sp, w, hgt⟩ := cell
  unfold bgListVal at hx
  cases fill with
  | raise => simp at hx
  | rgb r g b => exact bgValue_shape _ _ x hx
  | theme t =>
    simp only at hx
    cases hd : dictGet th (strUpper (strLower (lastStr (pySplit t '.')))) with
    | none =>
      rw [hd] at hx
      simp at hx
    | some hexv =>
      rw [hd] at hx
      by_cases hh : hexv = ""
      · simp [hh] at hx
      · simp only [hh, if_false, if_neg] at hx
        exact bgValue_shape _ _ x hx
  | noColor => simp at hx

theorem bg_prefix_ne (t s : String) (hs : s.data.head? = some 'a') : ("bg-" ++ t) ≠ s := by
  intro h
  have hd := congrArg String.data h
  rw [String.data_append] at hd
  have hh := congrArg List.head? hd
  rw [hs] at hh
  have : (("bg-" : String).data ++ t.data).head? = some 'b' := by
    rw [show ("bg-" : String).data = ['b', 'g', '-'] from rfl]
    rfl
  rw [this] at hh
  simp at hh

theorem bg_not_align (t : String) : isAlignCls ("bg-" ++ t) = false := by
  unfold isAlignCls
  have h1 := bg_prefix_ne t "align-left" (by rfl)
  have h2 := bg_prefix_ne t "align-center" (by rfl)
  have h3 := bg_prefix_ne t "align-right" (by rfl)
  simp [h1, h2, h3]

/-- Claim C6: alignment classification is total: the class string of every
cell is the space-joined deduplicated class list, which contains exactly one
of the three alignment classes; and that class is `align-left` whenever the
first paragraph's alignment is unset or any value other than center/right,
or its retrieval raises (here: the cell has no paragraph to index). -/
theorem claim_C6_align_total : ∀ (cell : Cell) (th : Dict) (st : Registry),
    ((cell_classes cell th st).1 =
      joinSep " " (dedupFirst ("ppt-cell" :: (bgListVal cell th ++ [alignName cell]))) ∧
     List.countP isAlignCls
       (dedupFirst ("ppt-cell" :: (bgListVal cell th ++ [alignName cell]))) = 1) ∧
    ((match cell.paragraphs with
      | [] => True
      | p :: _ => p.alignment ≠ some PPAlign.center ∧ p.alignment ≠ some PPAlign.right) →
      alignName cell = "align-left") := by
  intro cell th st
  refine ⟨⟨cell_classes_char cell th st, ?_⟩, ?_⟩
  · refine count_align_one _ _ ?_ ?_
    · intro x hx
      obtain ⟨t, rfl⟩ := bgListVal_shape cell th x hx
      exact bg_not_align t
    · obtain ⟨ps, fill, sp, w, hgt⟩ := cell
      cases ps with
      | nil => simp [alignName, isAlignCls]
      | cons p pr =>
        cases hA : p.alignment with
        | none => simp [alignName, hA, isAlignCls]
        | some a => cases a <;> simp [alignName, hA, isAlignCls]
  · intro hcond
    obtain ⟨ps, fill, sp, w, hgt⟩ := cell
    cases ps with
    | nil => rfl
    | cons p pr =>
      simp only at hcond
      obtain ⟨hc1, hc2⟩ := hcond
      cases hA : p.alignment with
      | none => simp [alignName, hA]
      | some a =>
        cases a with
        | center => exact absurd hA hc1
        | right => exact absurd hA hc2
        | left => simp [alignName, hA]
        | other => simp [alignName, hA]

/-!
Claim C10: the class string depends only on the fill and the first
paragraph; the alignment of later paragraphs is irrelevant.
-/

/-- Two paragraphs that agree on everything except possibly alignment. -/
def paraAgreeExceptAlign (p q : Para) : Prop :=
  p.runs = q.runs ∧ p.level = q.level ∧ p.buChar = q.buChar

/-- Claim C10: two cells identical except for the alignment attributes of
paragraphs after the first get identical class strings from `cell_classes`. -/
theorem claim_C10_first_para_align : ∀ (c1 c2 : Cell) (th : Dict) (st : Registry),
    c1.fill = c2.fill →
    c1.is_spanned = c2.is_spanned →
    c1.span_width = c2.span_width →
    c1.span_height = c2.span_height →
    (match c1.paragraphs, c2.paragraphs with
     | [], [] => True
     | p :: t1, q :: t2 => p = q ∧ List.Forall₂ paraAgreeExceptAlign t1 t2
     | _, _ => False) →
    (cell_classes c1 th st).1 = (cell_classes c2 th st).1 := by
  intro c1 c2 th st hf hsp hw hh hp
  rw [cell_classes_char, cell_classes_char]
  obtain ⟨ps1, f1, sp1, w1, h1⟩ := c1
  obtain ⟨ps2, f2, sp2, w2, h2⟩ := c2
  simp only at hf hsp hw hh hp
  subst hf; subst hsp; subst hw; subst hh
  cases ps1 with
  | nil =>
    cases ps2 with
    | nil => rfl
    | cons q t2 => exact absurd hp (by simp)
  | cons p t1 =>
    cases ps2 with
    | nil => exact absurd hp (by simp)
    | cons q t2 =>
      obtain ⟨hpq, _⟩ := hp
      subst hpq
      rfl

/-- The C10 witness cells: identical except the second paragraph's
alignment (center in one, right in the other). -/
def cellC10a : Cell :=
  ⟨[plainPara "A", ⟨[], 0, false, some PPAlign.center⟩], ColorAccess.raise, false, 1, 1⟩

/-- The partner cell of the C10 witness. -/
def cellC10b : Cell :=
  ⟨[plainPara "A", ⟨[], 0, false, some PPAlign.right⟩], ColorAccess.raise, false, 1, 1⟩

/-- Witness for claim C10 at the two concrete cells. -/
theorem claim_C10_witness :
    (cell_classes cellC10a [] []).1 = (cell_classes cellC10b [] []).1 :=
  claim_C10_first_para_align cellC10a cellC10b [] [] rfl rfl rfl rfl
    ⟨rfl, List.Forall₂.cons ⟨rfl, rfl, rfl⟩ List.Forall₂.nil⟩

/-- Witness for claim C6 at a concrete cell with unset alignment. -/
theorem claim_C6_witness :
    (match (plainCell "A" false 1 1).paragraphs with
     | [] => True
     | p :: _ => p.alignment ≠ some PPAlign.center ∧ p.alignment ≠ some PPAlign.right) ∧
    alignName (plainCell "A" false 1 1) = "align-left" :=
  ⟨⟨by decide, by decide⟩,
   (claim_C6_align_total (plainCell "A" false 1 1) [] []).2 ⟨by decide, by decide⟩⟩

/-!
String-safety machinery for claim C4.  Generated markup never contains a
`<` immediately followed by `l`, so the only items that start with the
list-item tag are the ones `para_to_html` wrapped deliberately.
-/

/-- The pair condition at one position: a `<` here must not be followed by
an `l`. -/
def ltGuard (c : Char) (rest : List Char) : Bool :=
  if c = '<' then
    match rest with
    | [] => true
    | d :: _ => decide (d ≠ 'l')
  else true

/-- No occurrence of `<` immediately followed by `l` anywhere in the list. -/
def noLtl : List Char → Bool
  | [] => true
  | c :: rest => ltGuard c rest && noLtl rest

theorem ltGuard_of_ne (c : Char) (rest : List Char) (h : c ≠ '<') : ltGuard c rest = true := by
  simp [ltGuard, h]

theorem ltGuard_nil (c : Char) : ltGuard c [] = true := by
  by_cases hc : c = '<' <;> simp [ltGuard, hc]

theorem ltGuard_cons (c d : Char) (rest rest' : List Char)
    (h : ltGuard c (d :: rest) = true) : ltGuard c (d :: rest') = true := by
  by_cases hc : c = '<'
  · simp only [ltGuard, if_pos hc] at h ⊢
    exact h
  · simp [ltGuard, hc]

theorem noLtl_append_left : ∀ (a b : List Char), noLtl (a ++ b) = true → noLtl a = true := by
  intro a
  induction a with
  | nil => intro b _; rfl
  | cons c a' ih =>
    intro b h
    rw [List.cons_append,
      show noLtl (c :: (a' ++ b)) = (ltGuard c (a' ++ b) && noLtl (a' ++ b)) from rfl,
      Bool.and_eq_true] at h
    rw [show noLtl (c :: a') = (ltGuard c a' && noLtl a') from rfl, Bool.and_eq_true]
    refine ⟨?_, ih b h.2⟩
    cases a' with
    | nil => exact ltGuard_nil c
    | cons d r =>
      have h1 := h.1
      rw [List.cons_append] at h1
      exact ltGuard_cons c d _ _ h1

theorem noLtl_append_right : ∀ (a b : List Char), noLtl (a ++ b) = true → noLtl b = true := by
  intro a
  induction a with
  | nil => intro b h; exact h
  | cons c a' ih =>
    intro b h
    rw [List.cons_append,
      show noLtl (c :: (a' ++ b)) = (ltGuard c (a' ++ b) && noLtl (a' ++ b)) from rfl,
      Bool.and_eq_true] at h
    exact ih b h.2

theorem noLtl_append_one : ∀ (a b : List Char), noLtl a = true → noLtl b = true →
    a.getLast? ≠ some '<' → noLtl (a ++ b) = true := by
  intro a
  induction a with
  | nil => intro b _ hb _; exact hb
  | cons c a' ih =>
    intro b ha hb hl
    rw [show noLtl (c :: a') = (ltGuard c a' && noLtl a') from rfl, Bool.and_eq_true] at ha
    rw [List.cons_append,
      show noLtl (c :: (a' ++ b)) = (ltGuard c (a' ++ b) && noLtl (a' ++ b)) from rfl,
      Bool.and_eq_true]
    have hl' : a'.getLast? ≠ some '<' := by
      cases a' with
      | nil => simp
      | cons d r =>
        rw [List.getLast?_cons_cons] at hl
        exact hl
    refine ⟨?_, ih b ha.2 hb hl'⟩
    cases a' with
    | nil =>
      have hc : c ≠ '<' := by
        intro hc
        apply hl
        rw [hc]
        rfl
      exact ltGuard_of_ne c _ hc
    | cons d r => exact ltGuard_cons c d _ _ ha.1

theorem noLtl_append_two : ∀ (a b : List Char), noLtl a = true → noLtl b = true →
    b.head? ≠ some 'l' → noLtl (a ++ b) = true := by
  intro a
  induction a with
  | nil => intro b _ hb _; exact hb
  | cons c a' ih =>
    intro b ha hb hh
    rw [show noLtl (c :: a') = (ltGuard c a' && noLtl a') from rfl, Bool.and_eq_true] at ha
    rw [List.cons_append,
      show noLtl (c :: (a' ++ b)) = (ltGuard c (a' ++ b) && noLtl (a' ++ b)) from rfl,
      Bool.and_eq_true]
    refine ⟨?_, ih b ha.2 hb hh⟩
    cases a' with
    | nil =>
      cases b with
      | nil => exact ltGuard_nil c
      | cons e r =>
        by_cases hc : c = '<'
        · subst hc
          have he : e ≠ 'l' := by
            intro he
            apply hh
            rw [he]
            rfl
          simp [ltGuard, he]
        · exact ltGuard_of_ne c _ hc
    | cons d r => exact ltGuard_cons c d _ _ ha.1

theorem noLtl_of_no_lt : ∀ (l : List Char), '<' ∉ l → noLtl l = true := by
  intro l
  induction l with
  | nil => intro _; rfl
  | cons c r ih =>
    intro h
    rw [show noLtl (c :: r) = (ltGuard c r && noLtl r) from rfl, Bool.and_eq_true]
    refine ⟨ltGuard_of_ne c r ?_, ih (fun hm => h (List.mem_cons_of_mem _ hm))⟩
    intro hc
    exact h (hc ▸ List.mem_cons_self _ _)

theorem noLtl_of_no_l : ∀ (l : List Char), 'l' ∉ l → noLtl l = true := by
  intro l
  induction l with
  | nil => intro _; rfl
  | cons c r ih =>
    intro h
    rw [show noLtl (c :: r) = (ltGuard c r && noLtl r) from rfl, Bool.and_eq_true]
    refine ⟨?_, ih (fun hm => h (List.mem_cons_of_mem _ hm))⟩
    by_cases hc : c = '<'
    · subst hc
      cases r with
      | nil => exact ltGuard_nil '<'
      | cons d rr =>
        have hd : d ≠ 'l' := by
          intro hd
          subst hd
          exact h (List.mem_cons_of_mem _ (List.mem_cons_self _ _))
        simp [ltGuard, hd]
    · exact ltGuard_of_ne c _ hc

/-- Strings safe to concatenate: no `<l` pair inside and no trailing `<`. -/
def SafeStr (s : String) : Prop := noLtl s.data = true ∧ s.data.getLast? ≠ some '<'

theorem safe_of (s : String) (h1 : noLtl s.data = true) (h2 : s.data.getLast? ≠ some '<') :
    SafeStr s := ⟨h1, h2⟩

theorem safe_append (a b : String) (ha : SafeStr a) (hb : SafeStr b) : SafeStr (a ++ b) := by
  constructor
  · rw [String.data_append]
    exact noLtl_append_one _ _ ha.1 hb.1 ha.2
  · rw [String.data_append]
    cases hbd : b.data with
    | nil =>
      simp only [List.append_nil]
      exact ha.2
    | cons x xs =>
      rw [List.getLast?_append]
      have hb2 := hb.2
      rw [hbd] at hb2
      cases hxl : (x :: xs).getLast? with
      | none => simp at hxl
      | some v =>
        rw [hxl] at hb2
        simpa [Option.or] using hb2

theorem charToNat_ofNat (n : Nat) (h : n.isValidChar) : (Char.ofNat n).toNat = n := by
  unfold Char.ofNat
  rw [dif_pos h]
  rfl

theorem upChar_ne_l (c : Char) : upChar c ≠ 'l' := by
  unfold upChar
  split_ifs with h
  · intro hq
    have hv : (c.toNat - 32).isValidChar := by
      left
      omega
    have ht := congrArg Char.toNat hq
    rw [charToNat_ofNat _ hv] at ht
    have h108 : ('l').toNat = 108 := by decide
    rw [h108] at ht
    omega
  · intro hq
    rw [hq] at h
    exact h (by decide)

theorem strUpper_no_l (s : String) : 'l' ∉ (strUpper s).data := by
  intro hm
  obtain ⟨c, _, hcc⟩ := List.mem_map.mp hm
  exact upChar_ne_l c hcc

theorem lowChar_ne_lt (c : Char) (hca : c = '-' ∨ c.isAlphanum = true) : lowChar c ≠ '<' := by
  unfold lowChar
  split_ifs with h
  · intro hq
    have hv : (c.toNat + 32).isValidChar := by
      left
      omega
    have ht := congrArg Char.toNat hq
    rw [charToNat_ofNat _ hv] at ht
    have h60 : ('<').toNat = 60 := by decide
    rw [h60] at ht
    omega
  · intro hq
    subst hq
    rcases hca with h1 | h1
    · exact absurd h1 (by decide)
    · exact absurd h1 (by decide)

theorem collapseNon_mem : ∀ (l : List Char) (inR : Bool) (c : Char),
    c ∈ collapseNon inR l → c = '-' ∨ c.isAlphanum = true := by
  intro l
  induction l with
  | nil => intro inR c h; simp [collapseNon] at h
  | cons d r ih =>
    intro inR c h
    unfold collapseNon at h
    by_cases hd : d.isAlphanum
    · rw [if_pos hd] at h
      rcases List.mem_cons.mp h with h1 | h1
      · exact Or.inr (h1 ▸ hd)
      · exact ih false c h1
    · rw [if_neg hd] at h
      split at h
      · exact ih true c h
      · rcases List.mem_cons.mp h with h1 | h1
        · exact Or.inl h1
        · exact ih true c h1

theorem sanitize_no_lt (s : String) : '<' ∉ (sanitize s).data := by
  unfold sanitize
  by_cases hs : s = ""
  · rw [if_pos hs]
    simp
  · rw [if_neg hs]
    intro hm
    have hm2 : '<' ∈ (((collapseNon false s.data).dropWhile (fun c => c = '-')).reverse.dropWhile
        (fun c => c = '-')).reverse.map lowChar :=
      List.Sublist.mem hm (List.take_sublist _ _)
    obtain ⟨d, hd, hdc⟩ := List.mem_map.mp hm2
    rw [List.mem_reverse] at hd
    have hd2 := List.Sublist.mem hd (List.dropWhile_sublist _)
    rw [List.mem_reverse] at hd2
    have hd3 := List.Sublist.mem hd2 (List.dropWhile_sublist _)
    have hda := collapseNon_mem s.data false d hd3
    exact lowChar_ne_lt d hda hdc

theorem digitChar_ne_lt (n : Nat) : digitChar n ≠ '<' := by
  unfold digitChar
  intro h
  have hm := Nat.mod_lt n (show 0 < 10 by norm_num)
  have hv : (48 + n % 10).isValidChar := by
    left
    omega
  have ht := congrArg Char.toNat h
  rw [charToNat_ofNat _ hv] at ht
  have h60 : ('<').toNat = 60 := by decide
  rw [h60] at ht
  omega

theorem digitsRevFuel_mem : ∀ (fuel n : Nat) (c : Char),
    c ∈ digitsRevFuel fuel n → ∃ m, c = digitChar m := by
  intro fuel
  induction fuel with
  | zero => intro n c h; simp [digitsRevFuel] at h
  | succ f ih =>
    intro n c h
    unfold digitsRevFuel at h
    by_cases hn : n < 10
    · rw [if_pos hn] at h
      simp at h
      exact ⟨n, h⟩
    · rw [if_neg hn] at h
      rcases List.mem_cons.mp h with h1 | h1
      · exact ⟨n, h1⟩
      · exact ih _ c h1

theorem natRepr_no_lt (n : Nat) : '<' ∉ (natRepr n).data := by
  intro hm
  have hm2 : '<' ∈ digitsRevFuel (n + 1) n := by
    rw [← List.mem_reverse]
    exact hm
  obtain ⟨m, hm3⟩ := digitsRevFuel_mem _ _ _ hm2
  exact digitChar_ne_lt m hm3.symm

theorem concatAll_data (l : List String) : (concatAll l).data = (l.map String.data).flatten := by
  induction l with
  | nil => rfl
  | cons x xs ih => simp [concatAll, String.data_append, ih]

theorem escChar_no_lt (c : Char) : '<' ∉ (escChar c).data := by
  unfold escChar
  split_ifs with h1 h2 h3 h4 h5
  · decide
  · decide
  · decide
  · decide
  · decide
  · intro hm
    simp at hm
    exact h2 hm.symm

theorem mem_of_getLastQ {α : Type} {l : List α} {a : α} (h : l.getLast? = some a) : a ∈ l := by
  induction l with
  | nil => simp at h
  | cons x xs ih =>
    cases xs with
    | nil =>
      simp at h
      simp [h]
    | cons y ys =>
      rw [List.getLast?_cons_cons] at h
      exact List.mem_cons_of_mem _ (ih h)

theorem htmlEscape_safe (s : String) : SafeStr (htmlEscape s) := by
  have hno : '<' ∉ (htmlEscape s).data := by
    unfold htmlEscape
    rw [concatAll_data]
    intro hm
    rw [List.mem_flatten] at hm
    obtain ⟨piece, hp, hmem⟩ := hm
    obtain ⟨es, hes, hesp⟩ := List.mem_map.mp hp
    obtain ⟨c, _, hc⟩ := List.mem_map.mp hes
    rw [← hesp, ← hc] at hmem
    exact escChar_no_lt c hmem
  refine ⟨noLtl_of_no_lt _ hno, ?_⟩
  intro hlast
  exact hno (mem_of_getLastQ hlast)

theorem joinSep_noLtl (sep : String) (hsep : noLtl sep.data = true)
    (hne : sep.data ≠ []) (hh : sep.data.head? ≠ some 'l')
    (hl : sep.data.getLast? ≠ some '<') :
    ∀ (l : List String), (∀ x ∈ l, noLtl x.data = true) →
      noLtl (joinSep sep l).data = true := by
  intro l
  induction l with
  | nil => intro _; rfl
  | cons x xs ih =>
    intro hx
    cases xs with
    | nil => exact hx x (List.mem_cons_self _ _)
    | cons y ys =>
      rw [show joinSep sep (x :: y :: ys) = x ++ sep ++ joinSep sep (y :: ys) from rfl]
      rw [String.data_append, String.data_append]
      apply noLtl_append_one
      · exact noLtl_append_two _ _ (hx x (List.mem_cons_self _ _)) hsep hh
      · exact ih (fun z hz => hx z (List.mem_cons_of_mem _ hz))
      · rw [List.getLast?_append]
        cases hsl : sep.data.getLast? with
        | none => exact absurd (List.getLast?_eq_none_iff.mp hsl) hne
        | some v =>
          rw [hsl] at hl
          simpa [Option.or] using hl

theorem tcValue_noLtl (h : Option String) : ∀ x ∈ tcValue h, noLtl x.data = true := by
  intro x hx
  cases h with
  | none => simp [tcValue] at hx
  | some hex =>
    by_cases hh : hex = ""
    · simp [tcValue, hh] at hx
    · simp [tcValue, hh] at hx
      subst hx
      rw [String.data_append]
      apply noLtl_append_one
      · decide
      · exact noLtl_of_no_l _ (strUpper_no_l _)
      · decide

theorem ffValue_noLtl (n : Option String) : ∀ x ∈ ffValue n, noLtl x.data = true := by
  intro x hx
  cases n with
  | none => simp [ffValue] at hx
  | some nm =>
    by_cases hh : nm = ""
    · simp [ffValue, hh] at hx
    · simp [ffValue, hh] at hx
      subst hx
      rw [String.data_append]
      apply noLtl_append_one
      · decide
      · exact noLtl_of_no_lt _ (sanitize_no_lt _)
      · decide

theorem fsValue_noLtl (pt : Nat) : ∀ x ∈ fsValue pt, noLtl x.data = true := by
  intro x hx
  unfold fsValue at hx
  by_cases hp : pt = 0
  · simp [hp] at hx
  · simp [hp] at hx
    subst hx
    rw [String.data_append]
    apply noLtl_append_one
    · decide
    · exact noLtl_of_no_lt _ (natRepr_no_lt _)
    · decide

theorem runClassesVal_noLtl (f : Font) (th : Dict) :
    ∀ x ∈ runClassesVal f th, noLtl x.data = true := by
  obtain ⟨co, bo, it, un, na, sz⟩ := f
  intro x hx
  unfold runClassesVal at hx
  rcases List.mem_append.mp hx with h1 | h1
  · rcases List.mem_append.mp h1 with h2 | h2
    · cases co with
      | raise => simp at h2
      | rgb r g b => exact tcValue_noLtl _ x h2
      | theme t => exact tcValue_noLtl _ x h2
      | noColor => simp at h2
    · exact ffValue_noLtl _ x h2
  · cases sz with
    | none => simp at h1
    | some pt =>
      simp only at h1
      by_cases hp : pt = 0
      · simp [hp] at h1
      · rw [if_neg hp] at h1
        exact fsValue_noLtl _ x h1

theorem span_safe (cls text : String) (hc : noLtl cls.data = true) (ht : SafeStr text) :
    SafeStr ("<span class=\"" ++ cls ++ "\">" ++ text ++ "</span>") := by
  have h1 : noLtl ("<span class=\"" ++ cls).data = true := by
    rw [String.data_append]
    exact noLtl_append_one _ _ (by decide) hc (by decide)
  have h2 : SafeStr ("<span class=\"" ++ cls ++ "\">") := by
    constructor
    · rw [String.data_append]
      exact noLtl_append_two _ _ h1 (by decide) (by decide)
    · rw [String.data_append, List.getLast?_append]
      rw [show ("\">" : String).data.getLast? = some '>' from rfl]
      simp [Option.or]
  exact safe_append _ _ (safe_append _ _ h2 ht) (safe_of "</span>" (by decide) (by decide))

theorem wrap_safe (tag1 tag2 s : String) (h1 : SafeStr tag1) (h2 : SafeStr tag2)
    (hs : SafeStr s) : SafeStr (tag1 ++ s ++ tag2) :=
  safe_append _ _ (safe_append _ _ h1 hs) h2

theorem empty_safe : SafeStr "" := ⟨rfl, by simp⟩

theorem wraps_safe (b i u : Bool) (s : String) (hs : SafeStr s) :
    SafeStr (if u then
        "<u>" ++ (if i then "<i>" ++ (if b then "<b>" ++ s ++ "</b>" else s) ++ "</i>"
          else (if b then "<b>" ++ s ++ "</b>" else s)) ++ "</u>"
      else (if i then "<i>" ++ (if b then "<b>" ++ s ++ "</b>" else s) ++ "</i>"
        else (if b then "<b>" ++ s ++ "</b>" else s))) := by
  have h1 : SafeStr (if b then "<b>" ++ s ++ "</b>" else s) := by
    by_cases hb : b = true
    · rw [if_pos hb]
      exact wrap_safe _ _ _ (safe_of "<b>" (by decide) (by decide))
        (safe_of "</b>" (by decide) (by decide)) hs
    · rw [if_neg hb]
      exact hs
  have h2 : SafeStr (if i then "<i>" ++ (if b then "<b>" ++ s ++ "</b>" else s) ++ "</i>"
      else (if b then "<b>" ++ s ++ "</b>" else s)) := by
    by_cases hi : i = true
    · rw [if_pos hi]
      exact wrap_safe _ _ _ (safe_of "<i>" (by decide) (by decide))
        (safe_of "</i>" (by decide) (by decide)) h1
    · rw [if_neg hi]
      exact h1
  by_cases hu : u = true
  · rw [if_pos hu]
    exact wrap_safe _ _ _ (safe_of "<u>" (by decide) (by decide))
      (safe_of "</u>" (by decide) (by decide)) h2
  · rw [if_neg hu]
    exact h2

/-- Explicit shape of `run_to_html`'s output when the text is non-empty. -/
theorem run_to_html_char (r : Run) (th : Dict) (st : Registry)
    (ht : htmlEscape r.text ≠ "") :
    (run_to_html r th st).1 =
      (let sp := if (runClasses r.font th st).1 = [] then htmlEscape r.text
        else "<span class=\"" ++ joinSep " " (dedupFirst (runClasses r.font th st).1) ++ "\">" ++
          htmlEscape r.text ++ "</span>"
       let s1 := if r.font.bold then "<b>" ++ sp ++ "</b>" else sp
       let s2 := if r.font.italic then "<i>" ++ s1 ++ "</i>" else s1
       if r.font.underline then "<u>" ++ s2 ++ "</u>" else s2) := by
  simp only [run_to_html]
  rw [if_neg ht]

theorem run_to_html_safe (r : Run) (th : Dict) (st : Registry) :
    SafeStr (run_to_html r th st).1 := by
  by_cases ht : htmlEscape r.text = ""
  · simp [run_to_html, ht]
    exact empty_safe
  · have hspan : SafeStr (if (runClasses r.font th st).1 = [] then htmlEscape r.text
        else "<span class=\"" ++ joinSep " " (dedupFirst (runClasses r.font th st).1) ++ "\">" ++
          htmlEscape r.text ++ "</span>") := by
      by_cases hcl : (runClasses r.font th st).1 = []
      · rw [if_pos hcl]
        exact htmlEscape_safe _
      · rw [if_neg hcl]
        apply span_safe
        · apply joinSep_noLtl " " (by decide) (by decide) (by decide) (by decide)
          intro x hx
          have hx2 := dedupFirstAux_sub x _ [] hx
          rw [runClasses_val] at hx2
          exact runClassesVal_noLtl _ th x hx2
        · exact htmlEscape_safe _
    rw [run_to_html_char r th st ht]
    exact wraps_safe r.font.bold r.font.italic r.font.underline _ hspan

theorem concatAll_safe : ∀ (l : List String), (∀ x ∈ l, SafeStr x) → SafeStr (concatAll l) := by
  intro l
  induction l with
  | nil => intro _; exact empty_safe
  | cons x xs ih =>
    intro h
    exact safe_append _ _ (h x (List.mem_cons_self _ _))
      (ih fun z hz => h z (List.mem_cons_of_mem _ hz))

theorem pyStrip_noLtl (s : String) (h : noLtl s.data = true) :
    noLtl (pyStrip s).data = true := by
  show noLtl (((s.data.dropWhile (fun c => c.isWhitespace)).reverse.dropWhile
    (fun c => c.isWhitespace)).reverse) = true
  have h1 : noLtl (s.data.dropWhile (fun c => c.isWhitespace)) = true := by
    apply noLtl_append_right (s.data.takeWhile (fun c => c.isWhitespace))
    rw [List.takeWhile_append_dropWhile]
    exact h
  apply noLtl_append_left _ (((s.data.dropWhile (fun c => c.isWhitespace)).reverse.takeWhile
    (fun c => c.isWhitespace)).reverse)
  rw [← List.reverse_append, List.takeWhile_append_dropWhile, List.reverse_reverse]
  exact h1

theorem paraContent_noLtl (p : Para) (th : Dict) : noLtl (paraContent p th).data = true := by
  unfold paraContent
  apply pyStrip_noLtl
  refine (concatAll_safe _ (fun x hx => ?_)).1
  obtain ⟨r, _, hrx⟩ := List.mem_map.mp hx
  rw [← hrx]
  exact run_to_html_safe r th []

theorem strStarts_li_false (s : String) (h : noLtl s.data = true) :
    strStarts s "<li>" = false := by
  unfold strStarts
  rw [show ("<li>" : String).data = ['<', 'l', 'i', '>'] from rfl]
  cases hs : s.data with
  | nil => rfl
  | cons c rest =>
    by_cases hc : c = '<'
    · subst hc
      cases rest with
      | nil => simp [List.isPrefixOf]
      | cons d rest2 =>
        by_cases hd : d = 'l'
        · subst hd
          rw [hs] at h
          rw [show noLtl ('<' :: 'l' :: rest2) =
            (ltGuard '<' ('l' :: rest2) && noLtl ('l' :: rest2)) from rfl] at h
          simp [ltGuard] at h
        · simp [List.isPrefixOf, Ne.symm hd]
    · simp [List.isPrefixOf, Ne.symm hc]

theorem strStarts_li_true (c : String) : strStarts ("<li>" ++ c) "<li>" = true := by
  unfold strStarts
  rw [List.isPrefixOf_iff_prefix, String.data_append]
  exact List.prefix_append _ _

/-- Claim C4: when every paragraph with non-empty output is classified
non-bullet, `cell_content` joins the items with line breaks, none of the
items carries a list-item wrapper, and the result contains no `<l` pair at
all (hence no `<li>` or `<ul`-item markup is introduced); when at least one
non-empty paragraph is classified as a bullet, the whole sequence is wrapped
in exactly one unordered-list element. -/
theorem claim_C4_bullet_branching : ∀ (cell : Cell) (th : Dict) (st : Registry),
    ((∀ p ∈ cell.paragraphs, paraHtmlVal p th ≠ "" → bulletPara p = false) →
      (cell_content cell th st).1 = joinSep "<br/>" (cellItems cell th) ∧
      (∀ i ∈ cellItems cell th, strStarts i "<li>" = false) ∧
      noLtl (cell_content cell th st).1.data = true) ∧
    ((∃ p ∈ cell.paragraphs, bulletPara p = true ∧ paraHtmlVal p th ≠ "") →
      (cell_content cell th st).1 = "<ul>" ++ concatAll (cellItems cell th) ++ "</ul>") := by
  intro cell th st
  constructor
  · intro hnb
    have hitems : ∀ i ∈ cellItems cell th, strStarts i "<li>" = false ∧ noLtl i.data = true := by
      intro i hi
      obtain ⟨hi1, hi2⟩ := List.mem_filter.mp hi
      obtain ⟨p, hp, hpI⟩ := List.mem_map.mp hi1
      have hne : paraHtmlVal p th ≠ "" := by
        rw [hpI]
        simpa using hi2
      have hnb' := hnb p hp hne
      by_cases hc : paraContent p th = ""
      · exfalso
        apply hne
        show (para_to_html p th []).1 = ""
        rw [para_to_html_char, if_pos hc]
      · have hieq : i = paraContent p th := by
          rw [← hpI, show paraHtmlVal p th = (para_to_html p th []).1 from rfl,
            para_to_html_char, if_neg hc, hnb']
          simp
        rw [hieq]
        exact ⟨strStarts_li_false _ (paraContent_noLtl p th), paraContent_noLtl p th⟩
    have hany : (cellItems cell th).any (fun i => strStarts i "<li>") = false :=
      List.any_eq_false.mpr (fun i hi => by simp [(hitems i hi).1])
    rw [cell_content_char]
    by_cases hnil : cellItems cell th = []
    · rw [if_pos hnil, hnil]
      refine ⟨rfl, fun i hi => absurd hi (by simp), rfl⟩
    · rw [if_neg hnil, if_neg (by simp [hany])]
      refine ⟨rfl, fun i hi => (hitems i hi).1, ?_⟩
      apply joinSep_noLtl "<br/>" (by decide) (by decide) (by decide) (by decide)
      intro x hx
      exact (hitems x hx).2
  · rintro ⟨p, hp, hb, hne⟩
    by_cases hc : paraContent p th = ""
    · exfalso
      apply hne
      show (para_to_html p th []).1 = ""
      rw [para_to_html_char, if_pos hc]
    · have hval : paraHtmlVal p th = "<li>" ++ paraContent p th ++ "</li>" := by
        rw [show paraHtmlVal p th = (para_to_html p th []).1 from rfl, para_to_html_char,
          if_neg hc, hb]
        simp
      have hmem : paraHtmlVal p th ∈ cellItems cell th := by
        refine List.mem_filter.mpr ⟨List.mem_map.mpr ⟨p, hp, rfl⟩, ?_⟩
        simpa using hne
      have hstart : strStarts (paraHtmlVal p th) "<li>" = true := by
        rw [hval, String.append_assoc]
        exact strStarts_li_true _
      have hany : (cellItems cell th).any (fun i => strStarts i "<li>") = true :=
        List.any_eq_true.mpr ⟨_, hmem, hstart⟩
      have hnil : cellItems cell th ≠ [] := by
        intro h0
        rw [h0] at hmem
        simp at hmem
      rw [cell_content_char, if_neg hnil, if_pos hany]

/-- A two-paragraph plain cell (no bullets) for the C4 witness. -/
def twoParaCell : Cell := ⟨[plainPara "A", plainPara "B"], ColorAccess.raise, false, 1, 1⟩

/-- A cell mixing a plain paragraph with an indented (bullet) paragraph. -/
def bulletCell : Cell :=
  ⟨[plainPara "A",
    ⟨[⟨"B", ⟨ColorAccess.noColor, false, false, false, none, none⟩⟩], 1, false, none⟩],
   ColorAccess.raise, false, 1, 1⟩

/-- Witness for claim C4 at the two concrete cells: the all-plain cell joins
with line breaks, the mixed cell is wrapped in one list. -/
theorem claim_C4_witness :
    ((cell_content twoParaCell [] []).1 = joinSep "<br/>" (cellItems twoParaCell []) ∧
     (∀ i ∈ cellItems twoParaCell [], strStarts i "<li>" = false) ∧
     noLtl (cell_content twoParaCell [] []).1.data = true) ∧
    (cell_content bulletCell [] []).1 =
      "<ul>" ++ concatAll (cellItems bulletCell []) ++ "</ul>" :=
  ⟨(claim_C4_bullet_branching twoParaCell [] []).1 (by decide),
   (claim_C4_bullet_branching bulletCell [] []).2 (by decide)⟩
